import Mathlib

/-!
Shallow embedding of the data pipeline of `Netflix.py` (a pandas/Streamlit
dashboard over a CSV of 2023 Netflix viewership records).

The pipeline is: load a table of raw rows, normalize the `Hours Viewed` and
`Release Date` columns and derive `Release Month` / `Release Day`, filter by
the sidebar selection (content type, month range, languages), and aggregate.

Modelling conventions:
- a missing CSV cell (pandas `NaN`) is `Option.none`;
- numeric `Hours Viewed` values are rationals `ℚ` (exact stand-in for the
  script's 64-bit floats; none of the properties below depend on rounding);
- pandas operations that raise are embedded in `Except` (`astype(float)`) or
  return `Option.none` (`Series.idxmax` on an empty series, which raises
  `ValueError` in pandas);
- pandas reductions skip `NaN`, hence `Option.getD 0` in sums and
  `List.filterMap` before counting distinct values or grouping keys
  (`groupby`, `value_counts` and `nunique` drop nulls by default).
-/

namespace Netflix

/-- Calendar date, as produced by `pd.to_datetime`. -/
structure Date where
  year : Nat
  month : Nat
  day : Nat
deriving DecidableEq

/-- Row of the raw CSV table produced by `pd.read_csv` (line 8): each of the
five relevant columns is text, with `none` for a missing cell. -/
structure RawRow where
  title : Option String
  contentType : Option String
  releaseDate : Option String
  hoursViewed : Option String
  languageIndicator : Option String
deriving DecidableEq

/-- Row after the preprocessing block (lines 11-14): parsed hours, parsed
date, and the derived `Release Month` / `Release Day` columns. -/
structure Row where
  title : Option String
  contentType : Option String
  releaseDate : Option Date
  hoursViewed : Option ℚ
  releaseMonth : Option Nat
  releaseDay : Option String
  languageIndicator : Option String
deriving DecidableEq

/-- Splits a list of characters at every occurrence of `c` (accumulator holds
the current chunk, reversed). This is the single-character-separator case of
string splitting, used to model date and decimal parsing. -/
def splitCharAux (c : Char) : List Char → List Char → List (List Char)
  | [], acc => [acc.reverse]
  | x :: xs, acc =>
      if x = c then acc.reverse :: splitCharAux c xs []
      else splitCharAux c xs (x :: acc)

/-- Splits a character list at every occurrence of `c`. -/
def splitChar (c : Char) (l : List Char) : List (List Char) :=
  splitCharAux c l []

/-- Numeric value of a digit string (most significant digit first). -/
def digitsVal (l : List Char) : Nat :=
  l.foldl (fun a c => a * 10 + (c.toNat - 48)) 0

/-- True when every character is a decimal digit. -/
def allDigits (l : List Char) : Bool :=
  l.all (fun c => c.isDigit)

/-- Parses a nonempty digit string to a natural number. -/
def toNatDigits (l : List Char) : Option Nat :=
  if allDigits l ∧ l ≠ [] then some (digitsVal l) else none

/-- Parses the decimal-literal fragment of a Python float: optional sign,
integer part, optional `.` and fractional part. Returns `none` on anything
else — the case in which `astype(float)` raises `ValueError`. -/
def parseDecimalQ (l : List Char) : Option ℚ :=
  let sb : ℚ × List Char :=
    match l with
    | '-' :: rest => (-1, rest)
    | '+' :: rest => (1, rest)
    | _ => (1, l)
  match splitChar '.' sb.2 with
  | [ip] =>
      if allDigits ip ∧ ip ≠ [] then some (sb.1 * (digitsVal ip : ℚ)) else none
  | [ip, fp] =>
      if allDigits ip ∧ allDigits fp ∧ (ip ≠ [] ∨ fp ≠ []) then
        some (sb.1 * ((digitsVal ip : ℚ) + (digitsVal fp : ℚ) / (10 : ℚ) ^ fp.length))
      else none
  | _ => none

/-- Float parsing of a string, on its character data. -/
def parseFloatQ (s : String) : Option ℚ :=
  parseDecimalQ s.data

/-- Removes every literal comma character, modelling
`.replace(',', '', regex=True)` applied to one cell (line 11). -/
def stripCommas (s : String) : String :=
  String.mk (s.data.filter (fun c => c != ','))

/-- Leap-year test of the Gregorian calendar. -/
def isLeap (y : Nat) : Bool :=
  (y % 4 == 0 && y % 100 != 0) || y % 400 == 0

/-- Number of days of month `m` of year `y`. -/
def daysInMonth (y m : Nat) : Nat :=
  if m = 2 then (if isLeap y then 29 else 28)
  else if m = 4 ∨ m = 6 ∨ m = 9 ∨ m = 11 then 30
  else 31

/-- Parses an ISO `YYYY-MM-DD` date, validating month and day ranges; `none`
on anything unparseable. This models the locale-independent parse done by
`pd.to_datetime` (line 12); restricting to the ISO format does not affect the
properties proved below, which only use that parsing is a total function
into `Option Date` with validated month. -/
def parseDate (s : String) : Option Date :=
  match splitChar '-' s.data with
  | [ys, ms, ds] =>
      match toNatDigits ys, toNatDigits ms, toNatDigits ds with
      | some y, some m, some d =>
          if 1 ≤ m ∧ m ≤ 12 ∧ 1 ≤ d ∧ d ≤ daysInMonth y m then
            some { year := y, month := m, day := d }
          else none
      | _, _, _ => none
  | _ => none

/-- Month offsets of Sakamoto's weekday algorithm. -/
def sakamotoOffsets : List Nat := [0, 3, 2, 5, 0, 3, 5, 1, 4, 6, 2, 4]

/-- Weekday index of a date, 0 = Sunday (Sakamoto's algorithm). -/
def weekdayIndex (dt : Date) : Nat :=
  let y := if dt.month < 3 then dt.year - 1 else dt.year
  (y + y / 4 - y / 100 + y / 400 + sakamotoOffsets.getD (dt.month - 1) 0 + dt.day) % 7

/-- The seven weekday names, indexed from Sunday as Sakamoto's algorithm
produces them. -/
def dayNames : List String :=
  ["Sunday", "Monday", "Tuesday", "Wednesday", "Thursday", "Friday", "Saturday"]

/-- Weekday name of a date, as `Series.dt.day_name()` yields it (line 14). -/
def weekdayName (dt : Date) : String :=
  dayNames.getD (weekdayIndex dt) "Sunday"

/-- Normalization of one `Hours Viewed` cell (line 11): a missing cell stays
null; otherwise commas are stripped and the remainder parsed as a float,
`Except.error` modelling the `ValueError` that `astype(float)` raises. -/
def normalizeHoursCell : Option String → Except String (Option ℚ)
  | none => Except.ok none
  | some s =>
      match parseFloatQ (stripCommas s) with
      | some q => Except.ok (some q)
      | none => Except.error s

/-- Date parsing with `errors='coerce'` (line 12): a missing cell or an
unparseable date becomes null, never an error. -/
def toDatetimeCoerce : Option String → Option Date
  | none => none
  | some s => parseDate s

/-- Normalization of one row (lines 11-14): parse hours (propagating the
`astype(float)` error), coerce the date, and derive `Release Month` and
`Release Day` from the parsed date. -/
def normalizeRow (raw : RawRow) : Except String Row :=
  match normalizeHoursCell raw.hoursViewed with
  | Except.error e => Except.error e
  | Except.ok h =>
      Except.ok
        { title := raw.title
          contentType := raw.contentType
          releaseDate := toDatetimeCoerce raw.releaseDate
          hoursViewed := h
          releaseMonth := (toDatetimeCoerce raw.releaseDate).map Date.month
          releaseDay := (toDatetimeCoerce raw.releaseDate).map weekdayName
          languageIndicator := raw.languageIndicator }

/-- Normalization of the whole table; the first unparseable `Hours Viewed`
cell aborts it, as the column-wide `astype(float)` does. -/
def normalize (t : List RawRow) : Except String (List Row) :=
  t.mapM normalizeRow

/-- Pandas `Series.between(lo, hi)` on the `Release Month` column (line 45):
inclusive on both ends, and false on a null month (`NaN` compares false). -/
def monthBetween (m : Option Nat) (lo hi : Nat) : Bool :=
  match m with
  | none => false
  | some mv => decide (lo ≤ mv) && decide (mv ≤ hi)

/-- Pandas `Series.isin(languages)` on the `Language Indicator` column
(line 48): false on a null cell. -/
def langIsin (li : Option String) (langs : List String) : Bool :=
  match li with
  | none => false
  | some l => langs.contains l

/-- The filter block (lines 43-48): boolean-mask filter on content type and
month range, then a second mask on languages, applied only when the selected
language list is non-empty (`if languages:`). -/
def filtered_data (t : List Row) (ct : String) (lo hi : Nat) (langs : List String) :
    List Row :=
  let base := t.filter fun r =>
    decide (r.contentType = some ct) && monthBetween r.releaseMonth lo hi
  if langs.isEmpty then base
  else base.filter fun r => langIsin r.languageIndicator langs

/-- Contribution of one row to a pandas sum: a null `Hours Viewed` is
skipped, i.e. contributes 0. -/
def hoursOrZero (r : Row) : ℚ :=
  r.hoursViewed.getD 0

/-- Pandas `Series.sum()` over the `Hours Viewed` column of a list of rows
(nulls skipped). -/
def sumHours (rows : List Row) : ℚ :=
  (rows.map hoursOrZero).sum

/-- Summary metric `total_hours` (line 52). -/
def total_hours (fd : List Row) : ℚ :=
  sumHours fd

/-- Summary metric `unique_titles` (line 53): `Series.nunique()`, the number
of distinct non-null titles. -/
def unique_titles (fd : List Row) : Nat :=
  (fd.filterMap Row.title).dedup.length

/-- Pandas `groupby(key)[hours].sum()`: one pair per distinct non-null key
(null keys are dropped by `groupby`), keys sorted by `le` as pandas sorts
group keys, each paired with the sum of `Hours Viewed` over its group. -/
def groupbySum {κ : Type} [DecidableEq κ] (key : Row → Option κ) (le : κ → κ → Bool)
    (rows : List Row) : List (κ × ℚ) :=
  ((rows.filterMap key).dedup.mergeSort le).map fun k =>
    (k, sumHours (rows.filter fun r => decide (key r = some k)))

/-- Running maximum of `Series.idxmax`: keeps the first index attaining the
maximum value. -/
def idxmaxAux {κ : Type} (k : κ) (v : ℚ) : List (κ × ℚ) → κ
  | [] => k
  | (k2, v2) :: rest => if v < v2 then idxmaxAux k2 v2 rest else idxmaxAux k v rest

/-- Pandas `Series.idxmax()`: index of the first maximal value. On an empty
series pandas raises `ValueError`; that case is embedded as `none`. -/
def idxmax {κ : Type} : List (κ × ℚ) → Option κ
  | [] => none
  | (k, v) :: rest => some (idxmaxAux k v rest)

/-- The grouping `filtered_data.groupby('Content Type')['Hours Viewed'].sum()`
of line 54. -/
def content_type_sums (fd : List Row) : List (String × ℚ) :=
  groupbySum Row.contentType (fun a b => decide (a ≤ b)) fd

/-- Summary metric `most_viewed_type` (line 54): `idxmax` of the per-type
hour sums; `none` embeds the `ValueError` pandas raises when the filtered
set (hence the grouping) is empty. -/
def most_viewed_type (fd : List Row) : Option String :=
  idxmax (content_type_sums fd)

/-- Aggregation `monthly_viewership` (line 73): hours summed per release
month of the filtered set. -/
def monthly_viewership (fd : List Row) : List (Nat × ℚ) :=
  groupbySum Row.releaseMonth (fun a b => decide (a ≤ b)) fd

/-- Aggregation `language_viewership` (line 88): hours summed per language
of the filtered set. -/
def language_viewership (fd : List Row) : List (String × ℚ) :=
  groupbySum Row.languageIndicator (fun a b => decide (a ≤ b)) fd

/-- The fixed Monday-to-Sunday reindexing order of lines 104 and 107. -/
def weekDays : List String :=
  ["Monday", "Tuesday", "Wednesday", "Thursday", "Friday", "Saturday", "Sunday"]

/-- Aggregation `weekday_releases` (lines 103-105): per weekday, the number
of rows of the full table released on that weekday, emitted in the fixed
Monday-to-Sunday order of the `reindex`. (For a weekday with no rows the
pandas reindex yields `NaN` where this model yields the count 0; no claim
below depends on that value.) -/
def weekday_releases (t : List Row) : List (String × Nat) :=
  weekDays.map fun d =>
    (d, (t.filter fun r => decide (r.releaseDay = some d)).length)

/-- Aggregation `weekday_viewership` (lines 106-108): per weekday, the sum
of hours of the full table, in the fixed Monday-to-Sunday order. -/
def weekday_viewership (t : List Row) : List (String × ℚ) :=
  weekDays.map fun d =>
    (d, sumHours (t.filter fun r => decide (r.releaseDay = some d)))

/-- Sort key used by `sort_values(by='Hours Viewed', ascending=False)`: a
null value sorts after every number (pandas `na_position='last'`). -/
def hoursKey : Option ℚ → WithBot ℚ
  | none => ⊥
  | some q => (q : WithBot ℚ)

/-- Descending comparison on (Title, Hours Viewed) pairs, nulls last. -/
def topContentLe (a b : Option String × Option ℚ) : Bool :=
  decide (hoursKey b.2 ≤ hoursKey a.2)

/-- Aggregation `top_content` (line 176): the (Title, Hours Viewed)
projection of the filtered set, sorted by hours descending, first 10 rows. -/
def top_content (fd : List Row) : List (Option String × Option ℚ) :=
  ((fd.map fun r => (r.title, r.hoursViewed)).mergeSort topContentLe).take 10

/-- Aggregation `content_distribution` (line 182):
`value_counts()` of the `Content Type` column of the full table — one pair
per distinct non-null type with its row count, sorted by count descending. -/
def content_distribution (t : List Row) : List (String × Nat) :=
  ((t.filterMap Row.contentType).dedup.map fun k =>
      (k, (t.filter fun r => decide (r.contentType = some k)).length)).mergeSort
    fun a b => decide (b.2 ≤ a.2)

/-- The three sidebar selections (lines 38-40): a content type, a release
month range, and a (possibly empty) list of languages. -/
structure Selection where
  content_type : String
  month_lo : Nat
  month_hi : Nat
  languages : List String

/-- Everything the script computes from the table and the current selection
and hands to the chart/metric widgets. -/
structure Dashboard where
  total_hours : ℚ
  unique_titles : Nat
  most_viewed_type : Option String
  monthly_viewership : List (Nat × ℚ)
  language_viewership : List (String × ℚ)
  weekday_releases : List (String × Nat)
  weekday_viewership : List (String × ℚ)
  top_content : List (Option String × Option ℚ)
  content_distribution : List (String × Nat)

/-- One rerun of the script body below the preprocessing block: apply the
filter selection, then compute the summary metrics and the six aggregation
views. The weekday and distribution views read the full table `t`, not the
filtered set, exactly as lines 103-108, 147 and 182 do. -/
def render (t : List Row) (sel : Selection) : Dashboard :=
  let fd := filtered_data t sel.content_type sel.month_lo sel.month_hi sel.languages
  { total_hours := total_hours fd
    unique_titles := unique_titles fd
    most_viewed_type := most_viewed_type fd
    monthly_viewership := monthly_viewership fd
    language_viewership := language_viewership fd
    weekday_releases := weekday_releases t
    weekday_viewership := weekday_viewership t
    top_content := top_content fd
    content_distribution := content_distribution t }

/-- Predicate form of the Filter Engine contract as §4.3 of the spec words
it: content type matches, release month is non-null and inside the inclusive
range, and the language list is empty or contains the row's language. Stated
from the spec for comparison with `filtered_data`, which is the source's
two-step mask. -/
def filterSpecPred (ct : String) (lo hi : Nat) (langs : List String) (r : Row) : Bool :=
  decide (r.contentType = some ct) && monthBetween r.releaseMonth lo hi &&
    (langs.isEmpty || langIsin r.languageIndicator langs)

/-- The Filter Engine as the spec describes it: one stable filter pass with
the conjoined predicate. -/
def filterSpec (t : List Row) (ct : String) (lo hi : Nat) (langs : List String) :
    List Row :=
  t.filter (filterSpecPred ct lo hi langs)

/-- Sum of an arbitrary per-row weight over a list of rows; `sumHours` is
the instance with weight `hoursOrZero`, row counting the instance with
constant weight 1. -/
def sumBy {M : Type} [AddCommMonoid M] (w : Row → M) (rows : List Row) : M :=
  (rows.map w).sum

/-- Concrete normalized row: a March movie. -/
def rowA : Row :=
  { title := some "A", contentType := some "Movie"
    releaseDate := some { year := 2023, month := 3, day := 5 }
    hoursViewed := some 2, releaseMonth := some 3
    releaseDay := some "Sunday", languageIndicator := some "English" }

/-- Concrete normalized row: a May movie. -/
def rowB : Row :=
  { title := some "B", contentType := some "Movie"
    releaseDate := some { year := 2023, month := 5, day := 5 }
    hoursViewed := some 1, releaseMonth := some 5
    releaseDay := some "Friday", languageIndicator := some "Spanish" }

/-- Concrete two-row normalized table. -/
def sampleRows : List Row := [rowA, rowB]

/-- Concrete normalized row whose `Content Type` cell is null (pandas reads
an empty CSV cell as `NaN`; the script itself anticipates null types, line 38
drops them before offering the selectbox options). -/
def rowNoType : Row :=
  { title := some "X", contentType := none, releaseDate := none
    hoursViewed := some 1, releaseMonth := none, releaseDay := none
    languageIndicator := some "English" }

/-- Concrete raw row: a May movie with a comma-grouped hours value. -/
def rawMovieMay : RawRow :=
  { title := some "A", contentType := some "Movie"
    releaseDate := some "2023-05-05", hoursViewed := some "1,000,000"
    languageIndicator := some "English" }

/-- Concrete raw row whose release date is unparseable. -/
def rawBadDate : RawRow :=
  { title := some "B", contentType := some "Movie"
    releaseDate := some "not a date", hoursViewed := none
    languageIndicator := none }

/-- Normalized form of `rawMovieMay`. -/
def rowMovieMay : Row :=
  { title := some "A", contentType := some "Movie"
    releaseDate := some { year := 2023, month := 5, day := 5 }
    hoursViewed := some 1000000, releaseMonth := some 5
    releaseDay := some "Friday", languageIndicator := some "English" }

theorem sumBy_filter_split {M : Type} [AddCommMonoid M] (w : Row → M) (p : Row → Bool)
    (l : List Row) :
    sumBy w (l.filter p) + sumBy w (l.filter fun r => !(p r)) = sumBy w l := by
  have h := ((List.filter_append_perm p l).map w).sum_eq
  simpa [sumBy, List.map_append, List.sum_append] using h

theorem sum_fiber_eq {κ M : Type} [DecidableEq κ] [AddCommMonoid M]
    (key : Row → Option κ) (w : Row → M) :
    ∀ K : List κ, K.Nodup → ∀ rows : List Row,
      (∀ r ∈ rows, ∃ k ∈ K, key r = some k) →
      (K.map fun k => sumBy w (rows.filter fun r => decide (key r = some k))).sum
        = sumBy w rows := by
  intro K
  induction K with
  | nil =>
      intro _ rows hall
      have : rows = [] := by
        rw [List.eq_nil_iff_forall_not_mem]
        intro r hr
        rcases hall r hr with ⟨k, hk, _⟩
        exact absurd hk (List.not_mem_nil k)
      simp [this, sumBy]
  | cons k K ih =>
      intro hnd rows hall
      have hknd : k ∉ K := (List.nodup_cons.mp hnd).1
      have hKnd : K.Nodup := (List.nodup_cons.mp hnd).2
      set rest := rows.filter (fun r => !(decide (key r = some k))) with hrest
      have hcover : ∀ r ∈ rest, ∃ k2 ∈ K, key r = some k2 := by
        intro r hr
        have hm := List.mem_filter.mp hr
        rcases hall r hm.1 with ⟨k2, hk2, hkey⟩
        rcases List.mem_cons.mp hk2 with h | h
        · exfalso
          have := hm.2
          rw [hkey, h] at this
          simp at this
        · exact ⟨k2, h, hkey⟩
      have hfib : ∀ k2 ∈ K,
          (rows.filter fun r => decide (key r = some k2))
            = rest.filter fun r => decide (key r = some k2) := by
        intro k2 hk2
        have hne : k2 ≠ k := fun hc => hknd (hc ▸ hk2)
        rw [hrest, List.filter_filter]
        apply List.filter_congr
        intro r _
        by_cases h : key r = some k2
        · simp [h, hne]
        · simp [h]
      calc (List.map (fun k2 => sumBy w (rows.filter fun r => decide (key r = some k2)))
              (k :: K)).sum
          = sumBy w (rows.filter fun r => decide (key r = some k)) +
              (K.map fun k2 =>
                sumBy w (rest.filter fun r => decide (key r = some k2))).sum := by
            rw [List.map_cons, List.sum_cons]
            have hmc : (K.map fun k2 =>
                sumBy w (rows.filter fun r => decide (key r = some k2)))
                = K.map fun k2 => sumBy w (rest.filter fun r => decide (key r = some k2)) :=
              List.map_congr_left fun k2 hk2 => by rw [hfib k2 hk2]
            rw [hmc]
        _ = sumBy w (rows.filter fun r => decide (key r = some k)) + sumBy w rest :=
            by rw [ih hKnd rest hcover]
        _ = sumBy w rows := by rw [hrest]; exact sumBy_filter_split w _ rows

theorem sum_map_mergeSort {κ M : Type} [AddCommMonoid M] (l : List κ)
    (le : κ → κ → Bool) (f : κ → M) :
    ((l.mergeSort le).map f).sum = (l.map f).sum :=
  ((l.mergeSort_perm le).map f).sum_eq

theorem groupbySum_total {κ : Type} [DecidableEq κ] (key : Row → Option κ)
    (le : κ → κ → Bool) (rows : List Row)
    (hall : ∀ r ∈ rows, (key r).isSome) :
    ((groupbySum key le rows).map Prod.snd).sum = sumHours rows := by
  unfold groupbySum
  rw [List.map_map]
  have hsnd : (Prod.snd ∘ fun k =>
      (k, sumHours (rows.filter fun r => decide (key r = some k))))
      = fun k => sumBy hoursOrZero (rows.filter fun r => decide (key r = some k)) :=
    rfl
  rw [hsnd, sum_map_mergeSort]
  have hcover : ∀ r ∈ rows, ∃ k ∈ (rows.filterMap key).dedup, key r = some k := by
    intro r hr
    rcases Option.isSome_iff_exists.mp (hall r hr) with ⟨k, hk⟩
    exact ⟨k, List.mem_dedup.mpr (List.mem_filterMap.mpr ⟨r, hr, hk⟩), hk⟩
  exact sum_fiber_eq key hoursOrZero _ (List.nodup_dedup _) rows hcover

theorem filtered_data_eq_filter (t : List Row) (ct : String) (lo hi : Nat)
    (langs : List String) :
    filtered_data t ct lo hi langs = filterSpec t ct lo hi langs := by
  unfold filtered_data filterSpec
  by_cases h : langs.isEmpty
  · simp only [h, if_true]
    apply List.filter_congr
    intro r _
    simp [filterSpecPred, h]
  · simp only [h, if_false]
    rw [List.filter_filter]
    apply List.filter_congr
    intro r _
    simp only [filterSpecPred, h, Bool.false_or]
    rw [Bool.and_comm, Bool.and_assoc]

theorem mem_filtered_data {t : List Row} {ct : String} {lo hi : Nat}
    {langs : List String} {r : Row} (h : r ∈ filtered_data t ct lo hi langs) :
    r ∈ t ∧ r.contentType = some ct ∧ monthBetween r.releaseMonth lo hi = true := by
  rw [filtered_data_eq_filter] at h
  have hm := List.mem_filter.mp h
  refine ⟨hm.1, ?_, ?_⟩
  · have := hm.2
    simp only [filterSpecPred, Bool.and_eq_true, decide_eq_true_eq] at this
    exact this.1.1
  · have := hm.2
    simp only [filterSpecPred, Bool.and_eq_true, decide_eq_true_eq] at this
    exact this.1.2

theorem filterMap_const_replicate {κ : Type} (f : Row → Option κ) (c : κ) :
    ∀ l : List Row, (∀ r ∈ l, f r = some c) →
      l.filterMap f = List.replicate l.length c := by
  intro l
  induction l with
  | nil => intro _; rfl
  | cons r l ih =>
      intro hall
      rw [List.filterMap_cons, hall r (List.mem_cons_self r l)]
      simp only [List.length_cons, List.replicate_succ]
      rw [ih fun r2 h2 => hall r2 (List.mem_cons_of_mem r h2)]

theorem dedup_replicate_pos {κ : Type} [DecidableEq κ] (c : κ) :
    ∀ n : Nat, 0 < n → (List.replicate n c).dedup = [c] := by
  intro n
  induction n with
  | zero => intro h; exact absurd h (by norm_num)
  | succ n ih =>
      intro _
      rcases Nat.eq_zero_or_pos n with h | h
      · subst h; rfl
      · rw [List.replicate_succ, List.dedup_cons_of_mem]
        · exact ih h
        · exact List.mem_replicate.mpr ⟨Nat.pos_iff_ne_zero.mp h, rfl⟩

theorem length_filterMap_eq {κ : Type} (f : Row → Option κ) :
    ∀ l : List Row,
      (l.filterMap f).length = (l.filter fun r => (f r).isSome).length := by
  intro l
  induction l with
  | nil => rfl
  | cons r l ih =>
      rw [List.filterMap_cons, List.filter_cons]
      cases h : f r with
      | none => simpa [h] using ih
      | some k => simpa [h] using ih

theorem sumBy_one_eq_length (l : List Row) : sumBy (fun _ => (1 : Nat)) l = l.length := by
  induction l with
  | nil => rfl
  | cons r l ih =>
      unfold sumBy at ih ⊢
      rw [List.map_cons, List.sum_cons, ih, List.length_cons]
      omega

theorem weekdayIndex_lt (dt : Date) : weekdayIndex dt < 7 :=
  Nat.mod_lt _ (by norm_num)

theorem getD_mem_of_lt {κ : Type} (l : List κ) (i : Nat) (x : κ) (h : i < l.length) :
    l.getD i x ∈ l := by
  rw [List.getD_eq_getElem?_getD, List.getElem?_eq_getElem h]
  exact List.getElem_mem h

theorem weekdayName_mem (dt : Date) : weekdayName dt ∈ dayNames :=
  getD_mem_of_lt dayNames (weekdayIndex dt) "Sunday" (weekdayIndex_lt dt)

theorem parseDate_month_bounds (s : String) (d : Date) (h : parseDate s = some d) :
    1 ≤ d.month ∧ d.month ≤ 12 := by
  unfold parseDate at h
  split at h
  · split at h
    · split at h
      · rename_i hc
        injection h with h2
        subst h2
        exact ⟨hc.1, hc.2.1⟩
      · exact absurd h (by simp)
    · exact absurd h (by simp)
  · exact absurd h (by simp)

theorem groupbySum_cons_none {κ : Type} [DecidableEq κ] (key : Row → Option κ)
    (le : κ → κ → Bool) (r : Row) (fd : List Row) (h : key r = none) :
    groupbySum key le (r :: fd) = groupbySum key le fd := by
  unfold groupbySum
  have h1 : (r :: fd).filterMap key = fd.filterMap key := by
    simp [List.filterMap_cons, h]
  rw [h1]
  apply List.map_congr_left
  intro k _
  have h2 : ((r :: fd).filter fun x => decide (key x = some k))
      = fd.filter fun x => decide (key x = some k) := by
    simp [List.filter_cons, h]
  rw [h2]

theorem weekday_releases_cons_none (r : Row) (t : List Row) (h : r.releaseDay = none) :
    weekday_releases (r :: t) = weekday_releases t := by
  unfold weekday_releases
  apply List.map_congr_left
  intro d _
  simp [List.filter_cons, h]

theorem weekday_viewership_cons_none (r : Row) (t : List Row) (h : r.releaseDay = none) :
    weekday_viewership (r :: t) = weekday_viewership t := by
  unfold weekday_viewership
  apply List.map_congr_left
  intro d _
  simp [List.filter_cons, h]

/-- C2: for every normalized table, every content type, every month range
with 1 ≤ lo ≤ hi ≤ 12 and every language selection, the filter block
(lines 43-48) returns exactly the subsequence of rows whose content type
matches, whose release month is non-null and within the inclusive range,
and whose language is unconstrained or selected — in input order (it is a
sublist of the input) — and when nothing matches it returns the empty list
rather than raising. -/
theorem filter_engine_correct (t : List Row) (ct : String) (lo hi : Nat)
    (langs : List String) (hlo : 1 ≤ lo) (hlohi : lo ≤ hi) (hhi : hi ≤ 12) :
    filtered_data t ct lo hi langs = filterSpec t ct lo hi langs ∧
    (filtered_data t ct lo hi langs).Sublist t ∧
    ((∀ r ∈ t, filterSpecPred ct lo hi langs r = false) →
      filtered_data t ct lo hi langs = []) := by
  refine ⟨filtered_data_eq_filter t ct lo hi langs, ?_, ?_⟩
  · rw [filtered_data_eq_filter]
    exact List.filter_sublist t
  · intro hall
    rw [filtered_data_eq_filter]
    exact List.filter_eq_nil_iff.mpr fun r hr => by simp [hall r hr]

/-- Witness for C2 at a concrete table and selection. -/
theorem filter_engine_correct_witness :
    filtered_data sampleRows "Movie" 1 12 [] = filterSpec sampleRows "Movie" 1 12 [] ∧
    (filtered_data sampleRows "Movie" 1 12 []).Sublist sampleRows ∧
    ((∀ r ∈ sampleRows, filterSpecPred "Movie" 1 12 [] r = false) →
      filtered_data sampleRows "Movie" 1 12 [] = []) :=
  filter_engine_correct sampleRows "Movie" 1 12 [] (by decide) (by decide) (by decide)

/-- C3: normalization of a `Hours Viewed` cell removes every literal comma
and parses exactly the comma-stripped remainder; an unparseable remainder
yields the `astype(float)` error (a raise), never a silently different
number, and a null cell stays null. -/
theorem hours_normalization_strict (s : String) :
    ',' ∉ (stripCommas s).data ∧
    (∀ q : ℚ, normalizeHoursCell (some s) = Except.ok (some q) ↔
      parseFloatQ (stripCommas s) = some q) ∧
    (normalizeHoursCell (some s) = Except.error s ↔
      parseFloatQ (stripCommas s) = none) ∧
    normalizeHoursCell none = Except.ok none := by
  refine ⟨?_, ?_, ?_, rfl⟩
  · simp [stripCommas]
  · intro q
    unfold normalizeHoursCell
    cases h : parseFloatQ (stripCommas s) with
    | none => simp [h]
    | some q2 => simp [h]
  · unfold normalizeHoursCell
    cases h : parseFloatQ (stripCommas s) with
    | none => simp [h]
    | some q2 => simp [h]

/-- C4: an unparseable release date never raises: provided the hours cell
itself is fine, the row normalizes successfully with null `Release Date`,
`Release Month` and `Release Day`, it can never enter a filtered set (so it
is absent from every aggregation over the filtered set keyed by month), it
contributes nothing to the monthly grouping, and it is invisible to both
weekday aggregations. -/
theorem date_parse_failure_degrades (raw : RawRow) (s : String) (h : Option ℚ)
    (hdate : raw.releaseDate = some s) (hfail : parseDate s = none)
    (hh : normalizeHoursCell raw.hoursViewed = Except.ok h) :
    ∃ r : Row, normalizeRow raw = Except.ok r ∧
      r.releaseDate = none ∧ r.releaseMonth = none ∧ r.releaseDay = none ∧
      (∀ t ct lo hi langs, r ∉ filtered_data t ct lo hi langs) ∧
      (∀ fd : List Row, monthly_viewership (r :: fd) = monthly_viewership fd) ∧
      (∀ t2 : List Row, weekday_releases (r :: t2) = weekday_releases t2) ∧
      (∀ t2 : List Row, weekday_viewership (r :: t2) = weekday_viewership t2) := by
  have hd : toDatetimeCoerce raw.releaseDate = none := by
    rw [hdate]
    simpa [toDatetimeCoerce] using hfail
  unfold normalizeRow
  rw [hh]
  refine ⟨_, rfl, by simp [hd], by simp [hd], by simp [hd], ?_, ?_, ?_, ?_⟩
  · intro t ct lo hi langs hmem
    have hb := (mem_filtered_data hmem).2.2
    simp [hd, monthBetween] at hb
  · intro fd
    exact groupbySum_cons_none Row.releaseMonth _ _ fd (by simp [hd])
  · intro t2
    exact weekday_releases_cons_none _ t2 (by simp [hd])
  · intro t2
    exact weekday_viewership_cons_none _ t2 (by simp [hd])

/-- Witness for C4 at a concrete raw row with an unparseable date. -/
theorem date_parse_failure_degrades_witness :
    ∃ r : Row, normalizeRow rawBadDate = Except.ok r ∧
      r.releaseDate = none ∧ r.releaseMonth = none ∧ r.releaseDay = none ∧
      (∀ t ct lo hi langs, r ∉ filtered_data t ct lo hi langs) ∧
      (∀ fd : List Row, monthly_viewership (r :: fd) = monthly_viewership fd) ∧
      (∀ t2 : List Row, weekday_releases (r :: t2) = weekday_releases t2) ∧
      (∀ t2 : List Row, weekday_viewership (r :: t2) = weekday_viewership t2) :=
  date_parse_failure_degrades rawBadDate "not a date" none rfl (by decide) rfl

/-- C5: after normalization, `Release Month` and `Release Day` are null
exactly when `Release Date` is null, and otherwise equal its month (an
integer in 1..12) and its weekday name (one of the seven names): both are
derived from the parsed date, never set independently. -/
theorem derived_date_columns_consistent (raw : RawRow) (r : Row)
    (hok : normalizeRow raw = Except.ok r) :
    (r.releaseMonth = none ↔ r.releaseDate = none) ∧
    (r.releaseDay = none ↔ r.releaseDate = none) ∧
    ∀ d : Date, r.releaseDate = some d →
      r.releaseMonth = some d.month ∧ 1 ≤ d.month ∧ d.month ≤ 12 ∧
      r.releaseDay = some (weekdayName d) ∧ weekdayName d ∈ dayNames := by
  unfold normalizeRow at hok
  split at hok
  · exact absurd hok (by simp)
  · injection hok with h2
    subst h2
    cases hdc : toDatetimeCoerce raw.releaseDate with
    | none => simp [hdc]
    | some dt =>
        refine ⟨by simp [hdc], by simp [hdc], ?_⟩
        intro d hd
        simp only [hdc, Option.map_some] at hd ⊢
        injection hd with hd2
        subst hd2
        have hb : 1 ≤ dt.month ∧ dt.month ≤ 12 := by
          cases hrd : raw.releaseDate with
          | none => rw [hrd] at hdc; exact absurd hdc (by simp [toDatetimeCoerce])
          | some s2 =>
              rw [hrd] at hdc
              simp only [toDatetimeCoerce] at hdc
              exact parseDate_month_bounds s2 dt hdc
        exact ⟨rfl, hb.1, hb.2, rfl, weekdayName_mem dt⟩

/-- Witness for C5 at a concrete raw row with a parseable date. -/
theorem derived_date_columns_consistent_witness :
    (rowMovieMay.releaseMonth = none ↔ rowMovieMay.releaseDate = none) ∧
    (rowMovieMay.releaseDay = none ↔ rowMovieMay.releaseDate = none) ∧
    ∀ d : Date, rowMovieMay.releaseDate = some d →
      rowMovieMay.releaseMonth = some d.month ∧ 1 ≤ d.month ∧ d.month ≤ 12 ∧
      rowMovieMay.releaseDay = some (weekdayName d) ∧ weekdayName d ∈ dayNames :=
  derived_date_columns_consistent rawMovieMay rowMovieMay (by with_unfolding_all rfl)

/-- C6: the top-content view has at most 10 entries, is sorted by hours
descending (nulls ranked below every number, as pandas puts them last), and
every entry is the (Title, Hours Viewed) projection of a row of the
filtered set. -/
theorem top_content_spec (fd : List Row) :
    (top_content fd).length ≤ 10 ∧
    List.Pairwise (fun a b => hoursKey b.2 ≤ hoursKey a.2) (top_content fd) ∧
    ∀ p ∈ top_content fd, ∃ r ∈ fd, p = (r.title, r.hoursViewed) := by
  refine ⟨?_, ?_, ?_⟩
  · unfold top_content
    rw [List.length_take]
    exact inf_le_left
  · unfold top_content
    apply List.Pairwise.sublist (List.take_sublist _ _)
    have htrans : ∀ a b c, topContentLe a b = true → topContentLe b c = true →
        topContentLe a c = true := by
      intro a b c hab hbc
      simp only [topContentLe, decide_eq_true_eq] at hab hbc ⊢
      exact le_trans hbc hab
    have htot : ∀ a b, (topContentLe a b || topContentLe b a) = true := by
      intro a b
      rcases le_total (hoursKey a.2) (hoursKey b.2) with h | h
      · simp [topContentLe, h]
      · simp [topContentLe, h]
    have hs := List.sorted_mergeSort htrans htot (fd.map fun r => (r.title, r.hoursViewed))
    exact hs.imp fun hab => by simpa [topContentLe] using hab
  · intro p hp
    unfold top_content at hp
    rcases List.mem_map.mp (List.mem_mergeSort.mp (List.mem_of_mem_take hp)) with
      ⟨r, hr, he⟩
    exact ⟨r, hr, he.symm⟩

/-- C7: the per-month sums of the monthly viewership aggregation add up to
the total hours of the filtered set — every filtered row has a non-null
month, so the grouping loses nothing. -/
theorem monthly_viewership_conservation (t : List Row) (ct : String) (lo hi : Nat)
    (langs : List String) :
    ((monthly_viewership (filtered_data t ct lo hi langs)).map Prod.snd).sum
      = total_hours (filtered_data t ct lo hi langs) := by
  unfold monthly_viewership total_hours
  apply groupbySum_total
  intro r hr
  have h := (mem_filtered_data hr).2.2
  cases hm : r.releaseMonth with
  | none => rw [hm] at h; exact absurd h (by simp [monthBetween])
  | some m => simp

/-- C8: the weekday release-count and viewership-hours aggregations are
computed from the full table, so they are identical across all filter
selections, equal the full-table aggregations, and their keys are emitted
in the fixed Monday-to-Sunday order. -/
theorem weekday_views_unfiltered_fixed_order (t : List Row) (sel sel2 : Selection) :
    (render t sel).weekday_releases = (render t sel2).weekday_releases ∧
    (render t sel).weekday_viewership = (render t sel2).weekday_viewership ∧
    (render t sel).weekday_releases = weekday_releases t ∧
    (render t sel).weekday_viewership = weekday_viewership t ∧
    (render t sel).weekday_releases.map Prod.fst = weekDays ∧
    (render t sel).weekday_viewership.map Prod.fst = weekDays := by
  exact ⟨rfl, rfl, rfl, rfl, rfl, rfl⟩

/-- C9 counterexample: on a loadable one-row table whose `Content Type`
cell is null, `value_counts()` (which drops nulls) yields no groups, so the
counts sum to 0 while the table has 1 row — the claim's equality with the
total row count fails. -/
theorem content_distribution_counts_counterexample :
    ¬ (((content_distribution [rowNoType]).map Prod.snd).sum
        = ([rowNoType] : List Row).length) := by
  have h : content_distribution [rowNoType] = [] := by
    unfold content_distribution
    simp [rowNoType, List.mergeSort_nil]
  rw [h]
  simp

/-- C9 amended: the content-distribution counts, summed across all groups,
equal the number of rows of the unfiltered table whose `Content Type` is
non-null (hence the total row count whenever every row has a content
type). -/
theorem content_distribution_counts_amended (t : List Row) :
    ((content_distribution t).map Prod.snd).sum
      = (t.filterMap Row.contentType).length := by
  unfold content_distribution
  rw [sum_map_mergeSort, List.map_map]
  set t2 := t.filter (fun r => (Row.contentType r).isSome) with ht2
  have hfib : ∀ k, (t.filter fun r => decide (r.contentType = some k))
      = t2.filter fun r => decide (r.contentType = some k) := by
    intro k
    rw [ht2, List.filter_filter]
    apply List.filter_congr
    intro r _
    by_cases h : r.contentType = some k
    · simp [h]
    · simp [h]
  have hmap : ((t.filterMap Row.contentType).dedup.map
      (Prod.snd ∘ fun k => (k, (t.filter fun r => decide (r.contentType = some k)).length)))
      = (t.filterMap Row.contentType).dedup.map
        fun k => sumBy (fun _ => (1 : Nat))
          (t2.filter fun r => decide (Row.contentType r = some k)) := by
    apply List.map_congr_left
    intro k _
    simp only [Function.comp]
    rw [hfib k, sumBy_one_eq_length]
  have hcover : ∀ r ∈ t2, ∃ k ∈ (t.filterMap Row.contentType).dedup,
      Row.contentType r = some k := by
    intro r hr
    have hm := List.mem_filter.mp hr
    rcases Option.isSome_iff_exists.mp (by simpa using hm.2) with ⟨k, hk⟩
    exact ⟨k, List.mem_dedup.mpr (List.mem_filterMap.mpr ⟨r, hm.1, hk⟩), hk⟩
  rw [hmap,
    sum_fiber_eq Row.contentType (fun _ => (1 : Nat)) _ (List.nodup_dedup _) t2 hcover,
    sumBy_one_eq_length, ht2, length_filterMap_eq]

/-- C10: whenever the filtered set is non-empty, the most-viewed-type
summary metric equals the selected content type — the filter leaves only
rows of that type, so the per-type grouping has exactly one group and its
argmax is that group. -/
theorem most_viewed_type_eq_selected (t : List Row) (ct : String) (lo hi : Nat)
    (langs : List String) (hne : filtered_data t ct lo hi langs ≠ []) :
    most_viewed_type (filtered_data t ct lo hi langs) = some ct := by
  set fd := filtered_data t ct lo hi langs with hfd
  have hall : ∀ r ∈ fd, Row.contentType r = some ct := by
    intro r hr
    rw [hfd] at hr
    exact (mem_filtered_data hr).2.1
  have hlen : 0 < fd.length := List.length_pos.mpr hne
  have hrep : fd.filterMap Row.contentType = List.replicate fd.length ct :=
    filterMap_const_replicate Row.contentType ct fd hall
  have hded : (fd.filterMap Row.contentType).dedup = [ct] := by
    rw [hrep]
    exact dedup_replicate_pos ct fd.length hlen
  unfold most_viewed_type content_type_sums groupbySum
  rw [hded, List.mergeSort_singleton]
  rfl

/-- Witness for C10 at a concrete table whose filtered set is non-empty. -/
theorem most_viewed_type_eq_selected_witness :
    most_viewed_type (filtered_data sampleRows "Movie" 1 12 []) = some "Movie" :=
  most_viewed_type_eq_selected sampleRows "Movie" 1 12 [] (by decide)

/-- C1 evaluation at a failing input: a normalized one-row table (a May
movie) filtered down to months 1..2 leaves an empty filtered set; the
total-hours and unique-title metrics are 0 as required, but
`most_viewed_type` is the `idxmax` of an empty grouping — the embedded
`none`, which in the source is an unguarded `Series.idxmax()` raising
`ValueError`, so the script does raise where the claim forbids it. -/
theorem empty_filter_summary_metrics_bug :
    normalize [rawMovieMay] = Except.ok [rowMovieMay] ∧
    filtered_data [rowMovieMay] "Movie" 1 2 [] = [] ∧
    total_hours (filtered_data [rowMovieMay] "Movie" 1 2 []) = 0 ∧
    unique_titles (filtered_data [rowMovieMay] "Movie" 1 2 []) = 0 ∧
    most_viewed_type (filtered_data [rowMovieMay] "Movie" 1 2 []) = none := by
  have hf : filtered_data [rowMovieMay] "Movie" 1 2 [] = [] := by decide
  refine ⟨by with_unfolding_all rfl, hf, ?_, ?_, ?_⟩
  · rw [hf]; rfl
  · rw [hf]; rfl
  · rw [hf]
    simp [most_viewed_type, content_type_sums, groupbySum, List.mergeSort_nil, idxmax]

end Netflix
